import Mathlib

/-!
Verification of the BinaryX-Graph resolution and graph-construction pipeline.

The definitions below are a shallow embedding of the Rust sources:
`src/utils/uid.rs` (address normalizer and key derivation),
`src/models/nodes.rs` and `src/models/relationships.rs` (entity model),
`src/api/session.rs` (import session pipeline), and
`src/neo4j/call_path_analyzer.rs` with `src/models/call_path.rs`
(call-path query processing).  Strings are worked on as lists of
characters; `u64` is modelled as `Nat` with an explicit `2 ^ 64` bound
where Rust's `from_str_radix` would overflow; fallible Rust code
returns `Option` or `Except`.  Graph-store round trips (neo4j) are
external to the core and always succeed in the model; query-processing
code is modelled as a pure function of the row set the store returns.
-/

namespace BXG

/-! ## Address normalizer (src/utils/uid.rs) -/

/-- Whitespace trim, modelling Rust's `str::trim` (restricted to the ASCII
whitespace characters, which are the only ones exercised here). -/
def rustTrim (cs : List Char) : List Char :=
  ((cs.dropWhile Char.isWhitespace).reverse.dropWhile Char.isWhitespace).reverse

/-- Value of one ASCII hex digit, as accepted by `u64::from_str_radix`. -/
def hexDigitVal (c : Char) : Option Nat :=
  if '0' ≤ c ∧ c ≤ '9' then some (c.toNat - '0'.toNat)
  else if 'a' ≤ c ∧ c ≤ 'f' then some (c.toNat - 'a'.toNat + 10)
  else if 'A' ≤ c ∧ c ≤ 'F' then some (c.toNat - 'A'.toNat + 10)
  else none

/-- Digit value in a given radix (only 10 and 16 are used by the code). -/
def digitVal (radix : Nat) (c : Char) : Option Nat :=
  match hexDigitVal c with
  | some d => if d < radix then some d else none
  | none => none

/-- Upper bound of `u64`. -/
def u64Bound : Nat := 2 ^ 64

/-- The fold step of `parseDigits`. -/
def digStep (radix : Nat) (acc : Option Nat) (c : Char) : Option Nat :=
  match acc, digitVal radix c with
  | some a, some d => some (a * radix + d)
  | _, _ => none

/-- Accumulate digits left to right; any invalid character poisons the result. -/
def parseDigits (radix : Nat) (cs : List Char) : Option Nat :=
  cs.foldl (digStep radix) (some 0)

/-- Model of Rust's `u64::from_str_radix`: an optional leading `+`, at least
one digit, all digits valid for the radix, and the value fits in `u64`. -/
def stripPlus (cs : List Char) : List Char :=
  match cs with
  | c :: rest => if c = '+' then rest else c :: rest
  | [] => []

def from_str_radix (radix : Nat) (cs : List Char) : Option Nat :=
  let body := stripPlus cs
  if body = [] then none
  else match parseDigits radix body with
    | some v => if v < u64Bound then some v else none
    | none => none

/-- Hex-only letters, i.e. `c.is_ascii_hexdigit() && !c.is_ascii_digit()`. -/
def hexLetter (c : Char) : Bool :=
  ('a' ≤ c ∧ c ≤ 'f') ∨ ('A' ≤ c ∧ c ≤ 'F')

/-- Strip a two-character prefix, modelling `str::strip_prefix` for the
two-character patterns `0x` and `0X` used by `parse_address`. -/
def strip2 (a b : Char) : List Char → Option (List Char)
  | x :: y :: rest => if x = a ∧ y = b then some rest else none
  | _ => none

/-- Body of `parse_address` once the input has been trimmed. -/
def parse_trimmed (t : List Char) : Option Nat :=
  if t = [] then none
  else
    match strip2 '0' 'x' t with
    | some rest => from_str_radix 16 rest
    | none =>
      match strip2 '0' 'X' t with
      | some rest => from_str_radix 16 rest
      | none =>
        if t.any hexLetter then from_str_radix 16 t
        else
          match from_str_radix 10 t with
          | some d => some d
          | none => from_str_radix 16 t

/-- Character-list core of `parse_address` from src/utils/uid.rs. -/
def parse_address_chars (cs : List Char) : Option Nat :=
  parse_trimmed (rustTrim cs)

/-- Model of `parse_address`. -/
def parse_address (s : String) : Option Nat :=
  parse_address_chars s.data

/-- Lowercase hex digit character for a value below 16. -/
def hexDigitChar (n : Nat) : Char :=
  if n < 10 then Char.ofNat ('0'.toNat + n) else Char.ofNat ('a'.toNat + (n - 10))

/-- Fuel-driven most-significant-first hex digit expansion (the fuel makes the
definition structurally recursive so that it evaluates by `decide`). -/
def toHexAux : Nat → Nat → List Char
  | 0, _ => []
  | fuel + 1, n =>
    if n < 16 then [hexDigitChar n]
    else toHexAux fuel (n / 16) ++ [hexDigitChar (n % 16)]

/-- Lowercase hex digits of `n`, no leading zeros, `['0']` for zero; this is
what Rust's `format!` with the lowercase-hex specifier produces. -/
def toHexChars (n : Nat) : List Char :=
  toHexAux (n + 1) n

/-- Model of `format_address`: the canonical `0x`-prefixed lowercase form. -/
def format_address (n : Nat) : String :=
  String.mk ('0' :: 'x' :: toHexChars n)

/-- Model of `normalize_address`. -/
def normalize_address (s : String) : Option String :=
  (parse_address s).map format_address

/-- The sixteen characters the hex formatter can emit. -/
def hexAlphabet : List Char :=
  "0123456789abcdef".data

/-! ## Entity model (src/models/nodes.rs, src/models/relationships.rs) -/

/-- ASCII lowercasing of one character, modelling the effect of Rust's
`str::to_lowercase` on the ASCII inputs exercised here. -/
def asciiLower (c : Char) : Char :=
  if 'A' ≤ c ∧ c ≤ 'Z' then Char.ofNat (c.toNat + 32) else c

/-- Model of `str::to_lowercase`. -/
def to_lowercase (s : String) : String :=
  String.mk (s.data.map asciiLower)

inductive FunctionType where
  | Internal
  | Import
  | Export
  | Thunk
deriving DecidableEq, Repr

structure Function where
  uid : String
  name : String
  ftype : FunctionType
  address : Option String
  size : Option Nat
deriving DecidableEq, Repr

/-- Model of `Function::create_internal` from src/models/nodes.rs. -/
def Function.create_internal (binary_hash : String) (address : Nat) (name : String)
    (isExport : Bool) : Function :=
  let hex_addr := format_address address
  { uid := binary_hash ++ ":" ++ hex_addr
    name := name
    ftype := if isExport then FunctionType.Export else FunctionType.Internal
    address := some hex_addr
    size := none }

/-- Model of `Function::create_import` from src/models/nodes.rs: the
global key shared across binaries, used when no address is available. -/
def Function.create_import (library name : String) : Function :=
  let lib_normalized := to_lowercase library
  { uid := "imp:" ++ lib_normalized ++ ":" ++ name
    name := name
    ftype := FunctionType.Import
    address := none
    size := none }

/-- Modelled from the spec: `Function::create_import_with_address` is called
in the imports phase of src/api/session.rs but its definition is not among
the source files (the nodes.rs present holds only the older global-key
`create_import`).  Spec section 4.2 gives the binary-scoped key as
`imp` `:` binary hash `:` lowercase library `:` symbol name; the session
passes the already-lowercased library name. -/
def Function.create_import_with_address (binary_hash library name address : String) :
    Function :=
  { uid := "imp:" ++ binary_hash ++ ":" ++ library ++ ":" ++ name
    name := name
    ftype := FunctionType.Import
    address := some address
    size := none }

/-- Fixed-width (six hex digit) encoding of one character code point. -/
def encodeChar (c : Char) : List Char :=
  List.replicate (6 - (toHexChars c.toNat).length) '0' ++ toHexChars c.toNat

/-- Modelled from the spec: the content hash used for String identifiers.
The function that produces it is not among the source files (the uid.rs
present hashes with SHA-256, whose digest the spec leaves abstract as `a
stable, deterministic hash function` that must not collide); it is modelled
as the fixed-width hexadecimal encoding of the character code points, which
is stable, deterministic and injective. -/
def contentHash (v : String) : String :=
  String.mk ((v.data.map encodeChar).flatten)

/-- Strip trailing NUL characters, modelling `value.trim_end_matches` with
the NUL character in `StringNode::new`. -/
def trimTrailingNul (v : String) : String :=
  String.mk ((v.data.reverse.dropWhile fun c => c = '\x00').reverse)

structure StringNode where
  value : String
  uid : String
  address : Option String
deriving DecidableEq, Repr

/-- Modelled from the spec: the three-argument `StringNode::new` used by
the session (strings phase of src/api/session.rs) and the `address` field
read back by the importer are not among the source files; the nodes.rs
present holds an older one-argument version whose key omits the binary hash.
Spec section 4.2: the String key is `str` `:` binary hash `:` content hash
of the normalized (trailing-NUL-stripped) value. -/
def StringNode.new (binary_hash value : String) (address : Option String) : StringNode :=
  let normalized_value := trimTrailingNul value
  { value := normalized_value
    uid := "str:" ++ binary_hash ++ ":" ++ contentHash normalized_value
    address := address }

structure Library where
  name : String
deriving DecidableEq, Repr

/-- Model of `Library::create` from src/models/nodes.rs. -/
def Library.create (name : String) : Library :=
  { name := to_lowercase name }

inductive CallType where
  | Direct
  | Indirect
  | Virtual
  | Tail
deriving DecidableEq, Repr

/-- Model of `CallType::from_str` from src/models/relationships.rs (total:
every unrecognized token falls back to `Direct`). -/
def CallType.from_str (s : String) : CallType :=
  match to_lowercase s with
  | "direct" => CallType.Direct
  | "indirect" => CallType.Indirect
  | "virtual" => CallType.Virtual
  | "tail" => CallType.Tail
  | _ => CallType.Direct

structure Calls where
  rel_type : String
  offset : String
  call_type : CallType
deriving DecidableEq, Repr

/-- Model of `Calls::new` from src/models/relationships.rs. -/
def Calls.new (offset : String) (call_type : CallType) : Calls :=
  { rel_type := "CALLS", offset := offset, call_type := call_type }

/-! ## Import session (src/api/session.rs)

The JSON payload is embedded structurally: each optional JSON key becomes an
`Option` field, a section that is present but not an array is `some none`,
and a field whose JSON value has the wrong type is `none` (what serde's
`as_str`/`as_u64` would reject).  The per-batch `address_to_uid` HashMap is
an association list whose most recent insertion is consulted first, which
matches HashMap overwrite-on-insert lookup semantics. -/

structure Import where
  name : String
  address : String
  library : String
deriving DecidableEq, Repr

structure Export where
  name : String
  address : String
deriving DecidableEq, Repr

structure FuncRecord where
  name : Option String
  address : Option String
  size : Option Nat
deriving DecidableEq, Repr

structure StringRecord where
  value : Option String
  address : Option String
deriving DecidableEq, Repr

structure ImportRecord where
  name : Option String
  library : Option String
  address : Option String
deriving DecidableEq, Repr

structure ExportRecord where
  name : Option String
  address : Option String
deriving DecidableEq, Repr

structure CallRecord where
  from_address : Option String
  to_address : Option String
  offset : Option String
  ctype : Option String
deriving DecidableEq, Repr

/-- The per-batch address map. -/
abbrev AddrMap : Type := List (String × String)

def mapInsert (m : AddrMap) (k v : String) : AddrMap :=
  (k, v) :: m

def mapLookup (m : AddrMap) (k : String) : Option String :=
  (m.find? fun p => p.1 == k).map fun p => p.2

def mapContains (m : AddrMap) (k : String) : Bool :=
  m.any fun p => p.1 == k

/-- Per-record body of `parse_functions`: defaults `unknown`, `0x0`, and
numeric address zero when the string is unparseable. -/
def parseFunc (binary_hash : String) (r : FuncRecord) : Function :=
  let name := r.name.getD "unknown"
  let address_str := r.address.getD "0x0"
  let address := (parse_address address_str).getD 0
  let f := Function.create_internal binary_hash address name false
  { f with size := r.size }

/-- Model of `ImportSession::parse_functions`. -/
def parse_functions (data : Option (List FuncRecord)) (binary_hash : String) :
    Except String (List Function) :=
  match data with
  | none => Except.error "functions must be an array"
  | some records => Except.ok (records.map (parseFunc binary_hash))

/-- Address-map registration of the functions phase (session.rs lines 65-72):
normalized form first, then the raw formatted address string. -/
def registerFunctionAddresses (m : AddrMap) (fs : List Function) : AddrMap :=
  fs.foldl
    (fun m f =>
      match f.address with
      | some address =>
        let m1 := match normalize_address address with
          | some normalized => mapInsert m normalized f.uid
          | none => m
        mapInsert m1 address f.uid
      | none => m)
    m

/-- Record list of the strings phase: records that are neither an object with
a string `value` nor a bare string are skipped. -/
def parse_strings_list (records : List StringRecord) (binary_hash : String) :
    List StringNode :=
  records.filterMap fun r => r.value.map fun v => StringNode.new binary_hash v r.address

/-- Model of `ImportSession::parse_strings`. -/
def parse_strings (data : Option (List StringRecord)) (binary_hash : String) :
    Except String (List StringNode) :=
  match data with
  | none => Except.error "strings must be an array"
  | some records => Except.ok (parse_strings_list records binary_hash)

/-- Batch deduplication of string nodes by uid (the `unique_strings` HashMap
with `entry(..).or_insert(..)`, which keeps the first record of each key);
the model keeps first-occurrence order where HashMap iteration order is
unspecified. -/
def dedupByUid (nodes : List StringNode) : List StringNode :=
  nodes.foldl
    (fun acc node => if acc.any fun m => m.uid == node.uid then acc else acc ++ [node])
    []

/-- First-occurrence deduplication of a list of strings; the length of the
result is the number of distinct elements of the input. -/
def firstDedup (l : List String) : List String :=
  l.foldl (fun acc v => if acc.any fun w => w == v then acc else acc ++ [v]) []

/-- The strings phase: the statistics contribution is the deduplicated count
and the deduplicated set is what gets persisted. -/
def strings_phase (records : List StringRecord) (binary_hash : String) :
    Nat × List StringNode :=
  let uniq := dedupByUid (parse_strings_list records binary_hash)
  (uniq.length, uniq)

/-- The functions phase: every parsed record counts toward the statistic,
and every parsed function registers its formatted address in the map. -/
def functions_phase (records : List FuncRecord) (binary_hash : String) (m : AddrMap) :
    Nat × List Function × AddrMap :=
  let fs := records.map (parseFunc binary_hash)
  (fs.length, fs, registerFunctionAddresses m fs)

/-- Loop of `ImportSession::parse_imports`: a record missing `name` or
`library` fails the whole imports phase; libraries deduplicate by lowercase
name (first occurrence). -/
def parse_imports_loop :
    List ImportRecord → List Library → List Import →
    Except String (List Library × List Import)
  | [], libs, imps => Except.ok (libs, imps)
  | r :: rest, libs, imps =>
    match r.name with
    | none => Except.error "Import missing name"
    | some name =>
      match r.library with
      | none => Except.error "Import missing library"
      | some library =>
        let address := r.address.getD "0x0"
        let lib_lower := to_lowercase library
        let libs1 := if libs.any fun l => l.name == lib_lower then libs
          else libs ++ [Library.create lib_lower]
        parse_imports_loop rest libs1 (imps ++ [⟨name, address, library⟩])

/-- Model of `ImportSession::parse_imports`. -/
def parse_imports (data : Option (List ImportRecord)) :
    Except String (List Library × List Import) :=
  match data with
  | none => Except.error "imports must be an array"
  | some records => parse_imports_loop records [] []

/-- The imports phase: synthesize a binary-scoped import Function per record
and register both the normalized and the raw address string in the map. -/
def imports_phase (m : AddrMap) (binary_hash : String) (imps : List Import) :
    AddrMap × List Function :=
  imps.foldl
    (fun acc imp =>
      let lib_name_lower := to_lowercase imp.library
      let function :=
        Function.create_import_with_address binary_hash lib_name_lower imp.name imp.address
      let m1 := match normalize_address imp.address with
        | some normalized => mapInsert acc.1 normalized function.uid
        | none => acc.1
      (mapInsert m1 imp.address function.uid, acc.2 ++ [function]))
    (m, [])

/-- Loop of `ImportSession::parse_exports`: a record missing `name` or
`address` fails the whole exports phase. -/
def parse_exports_loop : List ExportRecord → List Export → Except String (List Export)
  | [], exps => Except.ok exps
  | r :: rest, exps =>
    match r.name with
    | none => Except.error "Export missing name"
    | some name =>
      match r.address with
      | none => Except.error "Export missing address"
      | some address => parse_exports_loop rest (exps ++ [⟨name, address⟩])

/-- Model of `ImportSession::parse_exports`. -/
def parse_exports (data : Option (List ExportRecord)) : Except String (List Export) :=
  match data with
  | none => Except.error "exports must be an array"
  | some records => parse_exports_loop records []

/-- The exports phase: unparseable addresses are recorded as errors and
skipped; the map only gains entries for addresses it does not already hold
(the functions phase takes precedence), checking the raw formatted form. -/
def exports_phase (m : AddrMap) (binary_hash : String) (exps : List Export) :
    AddrMap × List String × List Function :=
  exps.foldl
    (fun acc export_ =>
      match parse_address export_.address with
      | none => (acc.1, acc.2.1 ++ ["Invalid export address: " ++ export_.address], acc.2.2)
      | some address =>
        let function := Function.create_internal binary_hash address export_.name true
        let m1 := match function.address with
          | some func_addr =>
            if mapContains acc.1 func_addr then acc.1
            else
              let m2 := match normalize_address func_addr with
                | some normalized => mapInsert acc.1 normalized function.uid
                | none => acc.1
              mapInsert m2 func_addr function.uid
          | none => acc.1
        (m1, acc.2.1, acc.2.2 ++ [function]))
    (m, [], [])

/-- A resolved CALLS edge as handed to the importer. -/
structure CallsEdge where
  calls : Calls
  from_uid : String
  to_uid : String
deriving DecidableEq, Repr

/-- Endpoint resolution of the calls phase: normalized form first, then the
raw form. -/
def resolveEndpoint (m : AddrMap) (addr : String) : Option String :=
  let normalized := (normalize_address addr).getD addr
  (mapLookup m normalized).orElse fun _ => mapLookup m addr

/-- Whether both endpoints of a call record resolve in the address map. -/
def bothResolve (m : AddrMap) (r : CallRecord) : Bool :=
  match r.from_address, r.to_address with
  | some f, some t => (resolveEndpoint m f).isSome && (resolveEndpoint m t).isSome
  | _, _ => false

/-- The edge built for a resolved call record. -/
def mkCallsEdge (m : AddrMap) (r : CallRecord) : CallsEdge :=
  { calls := Calls.new (r.offset.getD "0x0") (CallType.from_str (r.ctype.getD "direct"))
    from_uid := ((r.from_address.map fun a => resolveEndpoint m a).join).getD ""
    to_uid := ((r.to_address.map fun a => resolveEndpoint m a).join).getD "" }

/-- Loop of `ImportSession::import_calls_with_mapping`: a record missing an
address field aborts the whole phase with an error; otherwise unresolved
records are skipped and counted, resolved records are persisted and counted. -/
def importCallsLoop :
    List CallRecord → AddrMap → Nat → Nat → List CallsEdge →
    Except String (Nat × Nat × List CallsEdge)
  | [], _, call_count, skipped_count, edges => Except.ok (call_count, skipped_count, edges)
  | r :: rest, m, call_count, skipped_count, edges =>
    match r.from_address with
    | none => Except.error "Call missing from_address"
    | some _ =>
      match r.to_address with
      | none => Except.error "Call missing to_address"
      | some _ =>
        if bothResolve m r then
          importCallsLoop rest m (call_count + 1) skipped_count (edges ++ [mkCallsEdge m r])
        else
          importCallsLoop rest m call_count (skipped_count + 1) edges

/-- Model of `ImportSession::import_calls_with_mapping`. -/
def import_calls_with_mapping (data : Option (List CallRecord)) (address_to_uid : AddrMap) :
    Except String (Nat × Nat × List CallsEdge) :=
  match data with
  | none => Except.error "calls must be an array"
  | some records => importCallsLoop records address_to_uid 0 0 []

/-! ## Binary phase and the batch result -/

inductive BinaryFormat where
  | PE
  | Elf
  | MachO
deriving DecidableEq, Repr

structure Binary where
  hash : String
  filename : String
  file_path : String
  file_size : Nat
  format : BinaryFormat
  arch : String
deriving DecidableEq, Repr

structure HashesJson where
  sha256 : Option String
  sha256Upper : Option String
deriving DecidableEq, Repr

structure FileTypeJson where
  ftype : Option String
  architecture : Option String
deriving DecidableEq, Repr

structure BinaryInfoJson where
  name : Option String
  filename : Option String
  file_path : Option String
  file_size : Option Nat
  file_type : Option FileTypeJson
  hashes : Option HashesJson
deriving DecidableEq, Repr

/-- ASCII uppercasing of one character (for the format substring match). -/
def asciiUpper (c : Char) : Char :=
  if 'a' ≤ c ∧ c ≤ 'z' then Char.ofNat (c.toNat - 32) else c

/-- Model of `str::to_uppercase`. -/
def to_uppercase (s : String) : String :=
  String.mk (s.data.map asciiUpper)

/-- Model of `str::contains` for a literal pattern. -/
def containsSub (hay pat : String) : Bool :=
  decide (pat.data <:+: hay.data)

/-- Model of `ImportSession::parse_binary_info`. -/
def parse_binary_info (bi : BinaryInfoJson) : Except String Binary :=
  match bi.hashes with
  | none => Except.error "Missing hashes"
  | some hashes =>
    match hashes.sha256.orElse fun _ => hashes.sha256Upper with
    | none => Except.error "Missing sha256 hash"
    | some sha256 =>
      match bi.name.orElse fun _ => bi.filename with
      | none => Except.error "Missing filename"
      | some filename =>
        let file_path := bi.file_path.getD ""
        let file_size := bi.file_size.getD 0
        match bi.file_type with
        | none => Except.error "Missing file_type"
        | some file_type =>
          match file_type.ftype with
          | none => Except.error "Missing file type"
          | some format_str =>
            let format_upper := to_uppercase format_str
            let format :=
              if containsSub format_upper "PE" then BinaryFormat.PE
              else if containsSub format_upper "ELF" then BinaryFormat.Elf
              else if containsSub format_upper "MACH" then BinaryFormat.MachO
              else BinaryFormat.PE
            let arch := (file_type.architecture).getD "unknown"
            Except.ok ⟨sha256, filename, file_path, file_size, format, arch⟩

structure ImportStatistics where
  binaries : Nat
  functions : Nat
  strings : Nat
  libraries : Nat
  calls_relationships : Nat
  total_nodes : Nat
deriving DecidableEq, Repr

def zeroStats : ImportStatistics := ⟨0, 0, 0, 0, 0, 0⟩

structure ImportResult where
  success : Bool
  statistics : ImportStatistics
  errors : List String
deriving DecidableEq, Repr

structure ImportData where
  binary_info : Option BinaryInfoJson
  functions : Option (Option (List FuncRecord))
  strings : Option (Option (List StringRecord))
  imports : Option (Option (List ImportRecord))
  exports : Option (Option (List ExportRecord))
  calls : Option (Option (List CallRecord))

/-- Phases of `ImportSession::import_data` after the binary phase has
succeeded.  The graph-store round trips always succeed in the model, so the
only recorded errors are the parse and resolution errors the session itself
produces; the phase order, the error strings and the statistics mirror
session.rs. -/
def import_data_core (binary : Binary) (data : ImportData) : ImportResult :=
  let binary_hash := binary.hash
  let functionsOut : List String × Nat × AddrMap :=
    match data.functions with
    | none => ([], 0, [])
    | some fd =>
      match parse_functions fd binary_hash with
      | Except.error e => (["Failed to parse functions: " ++ e], 0, [])
      | Except.ok fs => ([], fs.length, registerFunctionAddresses [] fs)
  let stringsOut : List String × Nat :=
    match data.strings with
    | none => ([], 0)
    | some sd =>
      match parse_strings sd binary_hash with
      | Except.error e => (["Failed to parse strings: " ++ e], 0)
      | Except.ok ns => ([], (dedupByUid ns).length)
  let importsOut : List String × Nat × AddrMap :=
    match data.imports with
    | none => ([], 0, functionsOut.2.2)
    | some idata =>
      match parse_imports idata with
      | Except.error e => (["Failed to parse imports: " ++ e], 0, functionsOut.2.2)
      | Except.ok (libs, imps) =>
        ([], libs.length, (imports_phase functionsOut.2.2 binary_hash imps).1)
  let exportsOut : List String × AddrMap :=
    match data.exports with
    | none => ([], importsOut.2.2)
    | some ed =>
      match parse_exports ed with
      | Except.error e => (["Failed to parse exports: " ++ e], importsOut.2.2)
      | Except.ok exps =>
        let out := exports_phase importsOut.2.2 binary_hash exps
        (out.2.1, out.1)
  let callsOut : List String × Nat :=
    match data.calls with
    | none => ([], 0)
    | some cd =>
      match import_calls_with_mapping cd exportsOut.2 with
      | Except.error e => (["Failed to import calls: " ++ e], 0)
      | Except.ok (call_count, _, _) => ([], call_count)
  let errors := functionsOut.1 ++ stringsOut.1 ++ importsOut.1
    ++ exportsOut.1 ++ callsOut.1
  let statistics : ImportStatistics :=
    { binaries := 1
      functions := functionsOut.2.1
      strings := stringsOut.2
      libraries := importsOut.2.1
      calls_relationships := callsOut.2
      total_nodes := 1 + functionsOut.2.1 + stringsOut.2 + importsOut.2.1 }
  ⟨errors.isEmpty, statistics, errors⟩

/-- Model of `ImportSession::import_data`: the binary phase aborts the
batch on a missing or unparseable `binary_info`; otherwise the remaining
phases run in order. -/
def import_data (data : ImportData) : ImportResult :=
  match data.binary_info with
  | none => ⟨false, zeroStats, ["Missing binary_info in data"]⟩
  | some bi =>
    match parse_binary_info bi with
    | Except.error e => ⟨false, zeroStats, ["Failed to parse binary info: " ++ e]⟩
    | Except.ok binary => import_data_core binary data

/-! ## Call-path query processing (src/neo4j/call_path_analyzer.rs and
src/models/call_path.rs)

The Cypher queries execute in the external graph store; the analyzer's own
logic is the row processing, modelled as a pure function of the returned
row set.  Each row of a variable-length-path query carries the projected
name, address and offset lists (an absent or ill-typed column is the Rust
`unwrap_or_default`, i.e. the empty list). -/

structure PathRow where
  node_names : List String
  node_addresses : List String
  call_offsets : List String
deriving DecidableEq, Repr

structure CallPathNode where
  id : String
  name : String
  address : Option String
  depth : Nat
  call_site : Option String
  call_type : String
deriving DecidableEq, Repr

structure CallPath where
  id : String
  nodes : List CallPathNode
  length : Nat
deriving DecidableEq, Repr

/-- Model of `CallPath::new`. -/
def CallPath.new (id : String) : CallPath :=
  { id := id, nodes := [], length := 0 }

/-- Model of `CallPath::add_node`: the path length becomes the depth of the
node just added. -/
def CallPath.add_node (p : CallPath) (node : CallPathNode) : CallPath :=
  { p with length := node.depth, nodes := p.nodes ++ [node] }

/-- Node built for position `i` of a returned path row (downward query):
address defaults to `N/A`, the call site is the offset of the edge arriving
at the node (absent for the start node). -/
def mkPathNode (row : PathRow) (i : Nat) (name : String) : CallPathNode :=
  { id := name ++ "_" ++ toString i
    name := name
    address := some ((row.node_addresses.get? i).getD "N/A")
    depth := i
    call_site := if i > 0 then row.call_offsets.get? (i - 1) else none
    call_type := "Direct" }

/-- The path assembled from one non-degenerate row. -/
def buildPath (id : String) (row : PathRow) : CallPath :=
  row.node_names.enum.foldl
    (fun p pair => p.add_node (mkPathNode row pair.1 pair.2))
    (CallPath.new id)

/-- The synthetic single-node fallback path of `query_call_paths`. -/
def singlePath (function_name : String) : CallPath :=
  (CallPath.new "single_path").add_node
    { id := "single_node", name := function_name, address := some "0x1000"
      depth := 0, call_site := none, call_type := "Entry" }

/-- Model of `CallPathAnalyzer::query_call_paths`: the path counter counts
every returned row, rows with no projected names are dropped, and an empty
result is replaced by the synthetic single-node path. -/
def query_call_paths (function_name : String) (rows : List PathRow) : List CallPath :=
  let paths := rows.enum.filterMap fun pair =>
    if pair.2.node_names.isEmpty then none
    else some (buildPath ("path_" ++ toString (pair.1 + 1)) pair.2)
  if paths.isEmpty then [singlePath function_name] else paths

structure UpwardCallNode where
  id : String
  name : String
  address : Option String
  depth : Nat
  call_site : Option String
  call_type : String
deriving DecidableEq, Repr

structure UpwardCallChain where
  id : String
  nodes : List UpwardCallNode
  length : Nat
deriving DecidableEq, Repr

/-- Model of `UpwardCallChain::new`. -/
def UpwardCallChain.new (id : String) : UpwardCallChain :=
  { id := id, nodes := [], length := 0 }

/-- Model of `UpwardCallChain::add_node`. -/
def UpwardCallChain.add_node (c : UpwardCallChain) (node : UpwardCallNode) :
    UpwardCallChain :=
  { c with length := node.depth, nodes := c.nodes ++ [node] }

/-- Node built for position `i` of a returned path row (upward query): the
call site is the offset of the edge leaving the node (absent for the last). -/
def mkUpwardNode (row : PathRow) (i : Nat) (name : String) : UpwardCallNode :=
  { id := name ++ "_" ++ toString i
    name := name
    address := some ((row.node_addresses.get? i).getD "N/A")
    depth := i
    call_site := if i < row.node_names.length - 1 then row.call_offsets.get? i else none
    call_type := "Upward" }

/-- The chain assembled from one non-degenerate row. -/
def buildChain (id : String) (row : PathRow) : UpwardCallChain :=
  row.node_names.enum.foldl
    (fun c pair => c.add_node (mkUpwardNode row pair.1 pair.2))
    (UpwardCallChain.new id)

/-- The synthetic single-node fallback chain of `query_upward_call_chain`. -/
def singleChain (function_name : String) : UpwardCallChain :=
  (UpwardCallChain.new "single_upward_chain").add_node
    { id := "single_node", name := function_name, address := some "0x1000"
      depth := 0, call_site := none, call_type := "Root" }

/-- Model of `CallPathAnalyzer::query_upward_call_chain`. -/
def query_upward_call_chain (function_name : String) (rows : List PathRow) :
    List UpwardCallChain :=
  let chains := rows.enum.filterMap fun pair =>
    if pair.2.node_names.isEmpty then none
    else some (buildChain ("upward_chain_" ++ toString (pair.1 + 1)) pair.2)
  if chains.isEmpty then [singleChain function_name] else chains

/-- One row of the direct-callers query; a `none` field models a column the
row does not carry as a value of the expected type. -/
structure CallerRow where
  caller_name : Option String
  caller_address : Option String
  call_site : Option String
  callee_name : Option String
  callee_address : Option String
deriving DecidableEq, Repr

structure CallerSequence where
  id : String
  caller_name : String
  caller_address : String
  callee_name : String
  callee_address : String
  order : Nat
  call_site : String
deriving DecidableEq, Repr

/-- Model of `CallPathAnalyzer::query_caller_sequences`: rows missing any of
the five projected columns are skipped, and the order counter numbers only
the complete rows, starting at one. -/
def query_caller_sequences (rows : List CallerRow) : List CallerSequence :=
  let complete := rows.filterMap fun r =>
    match r.caller_name, r.caller_address, r.call_site, r.callee_name, r.callee_address with
    | some cn, some ca, some cs, some en, some ea => some (cn, ca, cs, en, ea)
    | _, _, _, _, _ => none
  complete.enum.map fun pair =>
    { id := "caller_seq_" ++ toString (pair.1 + 1)
      caller_name := pair.2.1
      caller_address := pair.2.2.1
      callee_name := pair.2.2.2.2.1
      callee_address := pair.2.2.2.2.2
      order := pair.1 + 1
      call_site := pair.2.2.2.1 }

structure CallContextAnalysis where
  function_name : String
  upward_chains : List UpwardCallChain
  downward_paths : List CallPath
  caller_sequences : List CallerSequence
  context_insights : List String
deriving DecidableEq, Repr

/-- The first insight string: chain and path counts. -/
def insight_counts (function_name : String) (up down : Nat) : String :=
  let q := String.singleton '\x27'
  "Function " ++ q ++ function_name ++ q ++ " has " ++ toString up
    ++ " upward call chains and " ++ toString down ++ " downward call paths"

/-- The second insight string: the caller count. -/
def insight_callers (k : Nat) : String :=
  "Function is called by " ++ toString k ++ " different callers"

/-- Model of `CallContextAnalysis::generate_context_insights`. -/
def generate_context_insights (a : CallContextAnalysis) : CallContextAnalysis :=
  let base := a.context_insights
    ++ [insight_counts a.function_name a.upward_chains.length a.downward_paths.length]
  if a.caller_sequences.isEmpty then { a with context_insights := base }
  else { a with context_insights := base ++ [insight_callers a.caller_sequences.length] }

/-- Model of `CallPathAnalyzer::analyze_call_context`: aggregate the three
query results for one function, then derive the insight strings. -/
def analyze_call_context (function_name : String) (upRows downRows : List PathRow)
    (callerRows : List CallerRow) : CallContextAnalysis :=
  generate_context_insights
    { function_name := function_name
      upward_chains := query_upward_call_chain function_name upRows
      downward_paths := query_call_paths function_name downRows
      caller_sequences := query_caller_sequences callerRows
      context_insights := [] }

/-! ## Round-trip lemmas for the address normalizer -/

theorem hexDigitChar_mem (m : Nat) (h : m < 16) : hexDigitChar m ∈ hexAlphabet := by
  interval_cases m <;> decide

theorem hexDigitVal_hexDigitChar (m : Nat) (h : m < 16) :
    hexDigitVal (hexDigitChar m) = some m := by
  interval_cases m <;> decide

theorem digitVal_sixteen_hexDigitChar (m : Nat) (h : m < 16) :
    digitVal 16 (hexDigitChar m) = some m := by
  interval_cases m <;> decide

theorem parseDigits_eq_foldl (radix : Nat) (cs : List Char) :
    parseDigits radix cs = cs.foldl (digStep radix) (some 0) := rfl

theorem foldl_digStep_none (radix : Nat) (cs : List Char) :
    cs.foldl (digStep radix) none = none := by
  induction cs with
  | nil => rfl
  | cons c cs ih =>
    have hstep : digStep radix none c = none := by
      unfold digStep
      cases digitVal radix c <;> rfl
    simpa [hstep] using ih

theorem toHexAux_ne_nil (fuel n : Nat) (h : n < fuel) : toHexAux fuel n ≠ [] := by
  cases fuel with
  | zero => omega
  | succ fuel =>
    unfold toHexAux
    by_cases h16 : n < 16 <;> simp [h16]

theorem toHexAux_mem (fuel : Nat) :
    ∀ n, n < fuel → ∀ c ∈ toHexAux fuel n, c ∈ hexAlphabet := by
  induction fuel with
  | zero => intro n h; omega
  | succ fuel ih =>
    intro n h c hc
    unfold toHexAux at hc
    by_cases h16 : n < 16
    · simp [h16] at hc
      subst hc
      exact hexDigitChar_mem n h16
    · simp [h16, List.mem_append] at hc
      rcases hc with hc | hc
      · have hdiv : n / 16 < fuel := by
          have := Nat.div_lt_self (by omega : 0 < n) (by omega : 1 < 16)
          omega
        exact ih (n / 16) hdiv c hc
      · subst hc
        exact hexDigitChar_mem _ (Nat.mod_lt _ (by omega))

theorem parseDigits_toHexAux (fuel : Nat) :
    ∀ n, n < fuel → parseDigits 16 (toHexAux fuel n) = some n := by
  induction fuel with
  | zero => intro n h; omega
  | succ fuel ih =>
    intro n h
    unfold toHexAux
    by_cases h16 : n < 16
    · simp only [h16, if_true]
      show digStep 16 (some 0) (hexDigitChar n) = some n
      unfold digStep
      rw [digitVal_sixteen_hexDigitChar n h16]
      simp
    · have hdiv : n / 16 < fuel := by
        have := Nat.div_lt_self (by omega : 0 < n) (by omega : 1 < 16)
        omega
      simp only [h16, if_false]
      rw [parseDigits_eq_foldl, List.foldl_append]
      rw [← parseDigits_eq_foldl, ih (n / 16) hdiv]
      show digStep 16 (some (n / 16)) (hexDigitChar (n % 16)) = some n
      unfold digStep
      rw [digitVal_sixteen_hexDigitChar _ (Nat.mod_lt _ (by omega))]
      simp only [Option.some.injEq]
      omega

theorem parseDigits_toHexChars (n : Nat) : parseDigits 16 (toHexChars n) = some n :=
  parseDigits_toHexAux (n + 1) n (Nat.lt_succ_self n)

theorem toHexChars_mem (n : Nat) : ∀ c ∈ toHexChars n, c ∈ hexAlphabet :=
  toHexAux_mem (n + 1) n (Nat.lt_succ_self n)

theorem toHexChars_ne_nil (n : Nat) : toHexChars n ≠ [] :=
  toHexAux_ne_nil (n + 1) n (Nat.lt_succ_self n)

theorem dropWhile_eq_self_of_all (p : Char → Bool) (cs : List Char)
    (h : ∀ c ∈ cs, p c = false) : cs.dropWhile p = cs := by
  cases cs with
  | nil => rfl
  | cons c cs => simp [List.dropWhile_cons, h c (by simp)]

theorem rustTrim_eq_self (cs : List Char)
    (h : ∀ c ∈ cs, c.isWhitespace = false) : rustTrim cs = cs := by
  unfold rustTrim
  rw [dropWhile_eq_self_of_all _ cs h]
  rw [dropWhile_eq_self_of_all _ cs.reverse (by intro c hc; exact h c (List.mem_reverse.mp hc))]
  exact List.reverse_reverse cs

theorem hexAlphabet_not_ws {c : Char} (h : c ∈ hexAlphabet) : c.isWhitespace = false := by
  fin_cases h <;> decide

theorem hexAlphabet_ne_plus {c : Char} (h : c ∈ hexAlphabet) : c ≠ '+' := by
  fin_cases h <;> decide

theorem stripPlus_of_head_ne (cs : List Char) (h : cs.head? ≠ some '+') :
    stripPlus cs = cs := by
  cases cs with
  | nil => rfl
  | cons c rest =>
    have hc : c ≠ '+' := by simpa using h
    simp [stripPlus, hc]

theorem from_str_radix_toHexChars (n : Nat) (h : n < u64Bound) :
    from_str_radix 16 (toHexChars n) = some n := by
  unfold from_str_radix
  have hne := toHexChars_ne_nil n
  have hhead : (toHexChars n).head? ≠ some '+' := by
    cases hx : toHexChars n with
    | nil => simp
    | cons c rest =>
      have hc : c ∈ hexAlphabet := toHexChars_mem n c (by rw [hx]; simp)
      simpa using hexAlphabet_ne_plus hc
  rw [stripPlus_of_head_ne _ hhead]
  simp only [hne, if_false, parseDigits_toHexChars n, h, if_true]

theorem from_str_radix_lt (radix : Nat) (cs : List Char) (n : Nat)
    (h : from_str_radix radix cs = some n) : n < u64Bound := by
  unfold from_str_radix at h
  by_cases h0 : stripPlus cs = []
  · simp [h0] at h
  · simp only [h0, if_false] at h
    cases hp : parseDigits radix (stripPlus cs) with
    | none => rw [hp] at h; exact absurd h (by simp)
    | some v =>
      rw [hp] at h
      by_cases hv : v < u64Bound
      · simp only [hv, if_true, Option.some.injEq] at h
        omega
      · simp [hv] at h

theorem parse_trimmed_lt (t : List Char) (n : Nat)
    (h : parse_trimmed t = some n) : n < u64Bound := by
  unfold parse_trimmed at h
  by_cases h0 : t = []
  · simp [h0] at h
  · simp only [h0, if_false] at h
    cases h1 : strip2 '0' 'x' t with
    | some rest => rw [h1] at h; exact from_str_radix_lt _ _ _ h
    | none =>
      rw [h1] at h
      cases h2 : strip2 '0' 'X' t with
      | some rest => rw [h2] at h; exact from_str_radix_lt _ _ _ h
      | none =>
        rw [h2] at h
        by_cases h3 : t.any hexLetter
        · simp only [h3, if_true] at h
          exact from_str_radix_lt _ _ _ h
        · simp only [h3, Bool.false_eq_true, if_false] at h
          cases h4 : from_str_radix 10 t with
          | some d =>
            rw [h4] at h
            simp only [Option.some.injEq] at h
            subst h
            exact from_str_radix_lt _ _ _ h4
          | none =>
            rw [h4] at h
            exact from_str_radix_lt _ _ _ h

theorem parse_address_lt (s : String) (n : Nat)
    (h : parse_address s = some n) : n < u64Bound :=
  parse_trimmed_lt _ _ h

theorem format_address_data (n : Nat) :
    (format_address n).data = '0' :: 'x' :: toHexChars n := rfl

theorem rustTrim_format (n : Nat) :
    rustTrim ('0' :: 'x' :: toHexChars n) = '0' :: 'x' :: toHexChars n := by
  apply rustTrim_eq_self
  intro c hc
  simp only [List.mem_cons] at hc
  rcases hc with rfl | rfl | hc
  · decide
  · decide
  · exact hexAlphabet_not_ws (toHexChars_mem n c hc)

theorem parse_address_format (n : Nat) (h : n < u64Bound) :
    parse_address (format_address n) = some n := by
  show parse_trimmed (rustTrim ('0' :: 'x' :: toHexChars n)) = some n
  rw [rustTrim_format n]
  unfold parse_trimmed
  have hne : ('0' :: 'x' :: toHexChars n : List Char) ≠ [] := by simp
  simp only [hne, if_false]
  have hstr : strip2 '0' 'x' ('0' :: 'x' :: toHexChars n) = some (toHexChars n) := by
    simp [strip2]
  rw [hstr]
  exact from_str_radix_toHexChars n h

theorem normalize_address_idem (s t : String)
    (h : normalize_address s = some t) : normalize_address t = some t := by
  unfold normalize_address at h ⊢
  cases hp : parse_address s with
  | none => rw [hp] at h; exact absurd h (by simp)
  | some n =>
    rw [hp] at h
    simp only [Option.map_some', Option.some.injEq] at h
    subst h
    rw [parse_address_format n (parse_address_lt s n hp)]
    rfl

theorem toHexAux_head_ne_zero (fuel : Nat) :
    ∀ n, n < fuel → 0 < n → (toHexAux fuel n).head? ≠ some '0' := by
  induction fuel with
  | zero => intro n h; omega
  | succ fuel ih =>
    intro n h hpos
    unfold toHexAux
    by_cases h16 : n < 16
    · simp only [h16, if_true, List.head?_cons, ne_eq, Option.some.injEq]
      interval_cases n <;> decide
    · have hdiv : n / 16 < fuel := by
        have := Nat.div_lt_self (by omega : 0 < n) (by omega : 1 < 16)
        omega
      have hdivpos : 0 < n / 16 := Nat.div_pos (by omega) (by omega)
      simp only [h16, if_false]
      rw [List.head?_append_of_ne_nil _ (toHexAux_ne_nil fuel (n / 16) hdiv)]
      exact ih (n / 16) hdiv hdivpos

theorem toHexChars_head_ne_zero (n : Nat) (hpos : 0 < n) :
    (toHexChars n).head? ≠ some '0' :=
  toHexAux_head_ne_zero (n + 1) n (Nat.lt_succ_self n) hpos

/-- Claim C2: address normalization is idempotent, and the empty string,
whitespace-only strings and digit-free strings are unparseable. -/
theorem claim_C2 :
    (∀ s t : String, normalize_address s = some t → normalize_address t = some t)
    ∧ normalize_address "" = none
    ∧ normalize_address "   " = none
    ∧ normalize_address "xyz" = none :=
  ⟨normalize_address_idem, by decide, by decide, by decide⟩

/-- Closed witness for claim C2 at a concrete input. -/
theorem claim_C2_witness :
    normalize_address "0X00001000" = some "0x1000"
    ∧ normalize_address "0x1000" = some "0x1000" :=
  ⟨by decide, claim_C2.1 "0X00001000" "0x1000" (by decide)⟩

/-- Claim C3: `parse_address` tries the `0x`/`0X` prefix first, then the
whole-string hexadecimal route when a hex-only letter occurs, then decimal,
then hexadecimal as a fallback; the canonical output of `format_address` is
`0x` followed by lowercase hex digits with no leading zeros, and zero is
rendered as `0x0`. -/
theorem claim_C3 :
    (∀ s : String,
      (∀ rest, strip2 '0' 'x' (rustTrim s.data) = some rest →
        parse_address s = from_str_radix 16 rest)
      ∧ (∀ rest, strip2 '0' 'x' (rustTrim s.data) = none →
        strip2 '0' 'X' (rustTrim s.data) = some rest →
        parse_address s = from_str_radix 16 rest)
      ∧ (strip2 '0' 'x' (rustTrim s.data) = none →
        strip2 '0' 'X' (rustTrim s.data) = none →
        rustTrim s.data ≠ [] →
        (rustTrim s.data).any hexLetter = true →
        parse_address s = from_str_radix 16 (rustTrim s.data))
      ∧ (∀ d, strip2 '0' 'x' (rustTrim s.data) = none →
        strip2 '0' 'X' (rustTrim s.data) = none →
        rustTrim s.data ≠ [] →
        (rustTrim s.data).any hexLetter = false →
        from_str_radix 10 (rustTrim s.data) = some d →
        parse_address s = some d)
      ∧ (strip2 '0' 'x' (rustTrim s.data) = none →
        strip2 '0' 'X' (rustTrim s.data) = none →
        rustTrim s.data ≠ [] →
        (rustTrim s.data).any hexLetter = false →
        from_str_radix 10 (rustTrim s.data) = none →
        parse_address s = from_str_radix 16 (rustTrim s.data)))
    ∧ (∀ n : Nat,
      (format_address n).data = '0' :: 'x' :: toHexChars n
      ∧ toHexChars n ≠ []
      ∧ (∀ c ∈ toHexChars n, c ∈ hexAlphabet)
      ∧ (0 < n → (toHexChars n).head? ≠ some '0'))
    ∧ format_address 0 = "0x0" := by
  refine ⟨fun s => ?_, fun n => ⟨rfl, toHexChars_ne_nil n, toHexChars_mem n,
    toHexChars_head_ne_zero n⟩, by decide⟩
  have hne : ∀ rest c, strip2 '0' c (rustTrim s.data) = some rest → rustTrim s.data ≠ [] := by
    intro rest c hst hnil
    rw [hnil] at hst
    exact absurd hst (by simp [strip2])
  refine ⟨?_, ?_, ?_, ?_, ?_⟩
  · intro rest h1
    show parse_trimmed (rustTrim s.data) = _
    unfold parse_trimmed
    simp only [hne rest 'x' h1, if_false, h1]
  · intro rest h1 h2
    show parse_trimmed (rustTrim s.data) = _
    unfold parse_trimmed
    simp only [hne rest 'X' h2, if_false, h1, h2]
  · intro h1 h2 h3 h4
    show parse_trimmed (rustTrim s.data) = _
    unfold parse_trimmed
    simp only [h3, if_false, h1, h2, h4, if_true]
  · intro d h1 h2 h3 h4 h5
    show parse_trimmed (rustTrim s.data) = _
    unfold parse_trimmed
    simp only [h3, if_false, h1, h2, h4, Bool.false_eq_true, h5]
  · intro h1 h2 h3 h4 h5
    show parse_trimmed (rustTrim s.data) = _
    unfold parse_trimmed
    simp only [h3, if_false, h1, h2, h4, Bool.false_eq_true, h5]

/-- Closed witness for claim C3 at concrete inputs exercising the branches. -/
theorem claim_C3_witness :
    parse_address "0xABCD" = from_str_radix 16 ['A', 'B', 'C', 'D']
    ∧ parse_address "abcd" = from_str_radix 16 ['a', 'b', 'c', 'd']
    ∧ parse_address "4096" = some 4096
    ∧ (0 < 4096 → (toHexChars 4096).head? ≠ some '0') :=
  ⟨(claim_C3.1 "0xABCD").1 ['A', 'B', 'C', 'D'] (by decide),
   (claim_C3.1 "abcd").2.2.1 (by decide) (by decide) (by decide) (by decide),
   (claim_C3.1 "4096").2.2.2.1 4096 (by decide) (by decide) (by decide) (by decide) (by decide),
   (claim_C3.2.1 4096).2.2.2⟩

/-! ## Key derivation theorems -/

theorem middle_segment_inj (p h1 h2 c : String)
    (h : p ++ h1 ++ ":" ++ c = p ++ h2 ++ ":" ++ c) : h1 = h2 := by
  have hd := congrArg String.data h
  simp only [String.data_append, List.append_assoc] at hd
  have hd2 := List.append_cancel_left hd
  exact String.ext (List.append_cancel_right hd2)

/-- Claim C4: the String identifier is a pure function of the binary hash
and the content hash of the trailing-NUL-stripped value, of the shape
`str` `:` binary hash `:` content hash; the same value under two different
binary hashes yields two different identifiers. -/
theorem claim_C4 :
    (∀ binary_hash value address,
      (StringNode.new binary_hash value address).uid
        = "str:" ++ binary_hash ++ ":" ++ contentHash (trimTrailingNul value))
    ∧ (∀ binary_hash v1 v2 a1 a2,
      contentHash (trimTrailingNul v1) = contentHash (trimTrailingNul v2) →
      (StringNode.new binary_hash v1 a1).uid = (StringNode.new binary_hash v2 a2).uid)
    ∧ (∀ bh1 bh2 value address, bh1 ≠ bh2 →
      (StringNode.new bh1 value address).uid ≠ (StringNode.new bh2 value address).uid) := by
  refine ⟨fun _ _ _ => rfl, fun bh v1 v2 a1 a2 hv => ?_, fun bh1 bh2 v a hne heq => ?_⟩
  · show "str:" ++ bh ++ ":" ++ contentHash (trimTrailingNul v1)
      = "str:" ++ bh ++ ":" ++ contentHash (trimTrailingNul v2)
    rw [hv]
  · exact hne (middle_segment_inj "str:" bh1 bh2 _ heq)

/-- Closed witness for claim C4: a trailing NUL does not change the
identifier, while a different binary hash does. -/
theorem claim_C4_witness :
    (StringNode.new "h1" "Hello\x00" none).uid = (StringNode.new "h1" "Hello" none).uid
    ∧ (StringNode.new "h1" "Hello" none).uid ≠ (StringNode.new "h2" "Hello" none).uid :=
  ⟨claim_C4.2.1 "h1" "Hello\x00" "Hello" none none (by decide),
   claim_C4.2.2 "h1" "h2" "Hello" none (by decide)⟩

/-- Claim C6: the Function synthesized for an import record carrying an
address has the binary-scoped identifier `imp` `:` binary hash `:` lowercase
library `:` symbol name — a pure function of those three parts — and it is
distinct from the global key `imp` `:` lowercase library `:` symbol name
produced by `Function.create_import` when no address is available. -/
theorem claim_C6 :
    (∀ binary_hash library name address,
      (Function.create_import_with_address binary_hash (to_lowercase library)
          name address).uid
        = "imp:" ++ binary_hash ++ ":" ++ to_lowercase library ++ ":" ++ name)
    ∧ (∀ binary_hash lib1 lib2 name a1 a2, to_lowercase lib1 = to_lowercase lib2 →
      (Function.create_import_with_address binary_hash (to_lowercase lib1) name a1).uid
        = (Function.create_import_with_address binary_hash (to_lowercase lib2) name a2).uid)
    ∧ (∀ binary_hash library name address,
      (Function.create_import_with_address binary_hash (to_lowercase library)
          name address).uid
        ≠ (Function.create_import library name).uid) := by
  refine ⟨fun _ _ _ _ => rfl, fun bh l1 l2 nm a1 a2 hl => ?_, fun bh lib nm a heq => ?_⟩
  · show "imp:" ++ bh ++ ":" ++ to_lowercase l1 ++ ":" ++ nm
      = "imp:" ++ bh ++ ":" ++ to_lowercase l2 ++ ":" ++ nm
    rw [hl]
  · have hlen := congrArg String.length heq
    have himp : ("imp:" : String).length = 4 := rfl
    have hcolon : (":" : String).length = 1 := rfl
    simp only [Function.create_import_with_address, Function.create_import,
      String.length_append, himp, hcolon] at hlen
    omega

/-- Closed witness for claim C6 at concrete inputs. -/
theorem claim_C6_witness :
    (Function.create_import_with_address "abc" (to_lowercase "Kernel32.DLL")
        "CreateFileW" "0x1000").uid
      = (Function.create_import_with_address "abc" (to_lowercase "KERNEL32.dll")
        "CreateFileW" "0x2000").uid
    ∧ (Function.create_import_with_address "abc" (to_lowercase "Kernel32.DLL")
        "CreateFileW" "0x1000").uid
      ≠ (Function.create_import "Kernel32.DLL" "CreateFileW").uid :=
  ⟨claim_C6.2.1 "abc" "Kernel32.DLL" "KERNEL32.dll" "CreateFileW" "0x1000" "0x2000" (by decide),
   claim_C6.2.2 "abc" "Kernel32.DLL" "CreateFileW" "0x1000"⟩

/-! ## Calls phase theorems -/

theorem importCallsLoop_spec (m : AddrMap) (rs : List CallRecord)
    (h : ∀ r ∈ rs, r.from_address.isSome ∧ r.to_address.isSome) :
    ∀ cc sc es, importCallsLoop rs m cc sc es
      = Except.ok (cc + (rs.filter (bothResolve m)).length,
          sc + (rs.filter fun r => ! bothResolve m r).length,
          es ++ (rs.filter (bothResolve m)).map (mkCallsEdge m)) := by
  induction rs with
  | nil => intro cc sc es; simp [importCallsLoop]
  | cons r rest ih =>
    intro cc sc es
    obtain ⟨hf, ht⟩ := h r (by simp)
    have hrest : ∀ x ∈ rest, x.from_address.isSome ∧ x.to_address.isSome :=
      fun x hx => h x (by simp [hx])
    obtain ⟨fa, hfa⟩ := Option.isSome_iff_exists.mp hf
    obtain ⟨ta, hta⟩ := Option.isSome_iff_exists.mp ht
    unfold importCallsLoop
    rw [hfa, hta]
    by_cases hb : bothResolve m r
    · simp only [hb, if_true, List.filter_cons_of_pos, List.map_cons]
      rw [ih hrest]
      simp [List.filter_cons, hb, List.append_assoc]
      omega
    · simp only [Bool.not_eq_true] at hb
      simp only [hb, Bool.false_eq_true, if_false]
      rw [ih hrest]
      simp [List.filter_cons, hb]
      omega

/-- Claim C1: with every call record carrying both address fields, the calls
phase returns without error; the persisted CALLS edges are exactly the
records whose two endpoints resolve in the address map (normalized form
first, then raw form, as `resolveEndpoint` does), the returned
`calls_relationships` count is the number of those records, and the skipped
count is exactly the number of records for which an endpoint resolves in
neither form — skipping adds nothing to the error list. -/
theorem claim_C1 (m : AddrMap) (rs : List CallRecord)
    (h : ∀ r ∈ rs, r.from_address.isSome ∧ r.to_address.isSome) :
    import_calls_with_mapping (some rs) m
      = Except.ok ((rs.filter (bothResolve m)).length,
          (rs.filter fun r => ! bothResolve m r).length,
          (rs.filter (bothResolve m)).map (mkCallsEdge m))
    ∧ (rs.filter (bothResolve m)).length + (rs.filter fun r => ! bothResolve m r).length
        = rs.length
    ∧ ((rs.filter (bothResolve m)).map (mkCallsEdge m)).length
        = (rs.filter (bothResolve m)).length := by
  refine ⟨?_, ?_, by simp⟩
  · have := importCallsLoop_spec m rs h 0 0 []
    simpa [import_calls_with_mapping] using this
  · induction rs with
    | nil => simp
    | cons r rest ih =>
      have hrest : ∀ x ∈ rest, x.from_address.isSome ∧ x.to_address.isSome :=
        fun x hx => h x (by simp [hx])
      have hsum := ih hrest
      by_cases hb : bothResolve m r
      · rw [List.filter_cons_of_pos (by simpa using hb),
          List.filter_cons_of_neg (by simp [hb])]
        simp only [List.length_cons]
        omega
      · simp only [Bool.not_eq_true] at hb
        rw [List.filter_cons_of_neg (by simp [hb]),
          List.filter_cons_of_pos (by simp [hb])]
        simp only [List.length_cons]
        omega

/-- Closed witness for claim C1: one resolved call record (its callee given
in decimal, found through the normalized form) and one unresolved record. -/
theorem claim_C1_witness :
    import_calls_with_mapping
        (some [⟨some "0x1000", some "4096", none, none⟩,
               ⟨some "0x2000", some "0x1000", none, none⟩])
        [("0x1000", "h:0x1000")]
      = Except.ok (1, 1, [⟨Calls.new "0x0" CallType.Direct, "h:0x1000", "h:0x1000"⟩]) := by
  have h := claim_C1 [("0x1000", "h:0x1000")]
    [⟨some "0x1000", some "4096", none, none⟩, ⟨some "0x2000", some "0x1000", none, none⟩]
    (by decide)
  exact h.1.trans (by rfl)

/-! ## Content-hash injectivity -/

theorem char_toNat_lt (c : Char) : c.toNat < 1114112 := by
  have h := c.valid
  rcases h with h | ⟨h1, h2⟩
  · show c.val.toNat < 1114112
    omega
  · show c.val.toNat < 1114112
    omega

theorem char_eq_of_toNat_eq (c d : Char) (h : c.toNat = d.toNat) : c = d := by
  apply Char.eq_of_val_eq
  apply UInt32.eq_of_val_eq
  exact Fin.ext h

theorem toHexAux_length_le (fuel : Nat) :
    ∀ n k, n < fuel → n < 16 ^ (k + 1) → (toHexAux fuel n).length ≤ k + 1 := by
  induction fuel with
  | zero => intro n k h; omega
  | succ fuel ih =>
    intro n k h hk
    unfold toHexAux
    by_cases h16 : n < 16
    · simp [h16]
    · have hkpos : 0 < k := by
        by_contra hk0
        have : k = 0 := by omega
        subst this
        simp at hk
        omega
      obtain ⟨k1, rfl⟩ : ∃ k1, k = k1 + 1 := ⟨k - 1, by omega⟩
      have hdivfuel : n / 16 < fuel := by
        have := Nat.div_lt_self (by omega : 0 < n) (by omega : 1 < 16)
        omega
      have hdivpow : n / 16 < 16 ^ (k1 + 1) := by
        rw [Nat.div_lt_iff_lt_mul (by omega : 0 < 16)]
        calc n < 16 ^ (k1 + 1 + 1) := hk
          _ = 16 ^ (k1 + 1) * 16 := by rw [pow_succ]
      have := ih (n / 16) k1 hdivfuel hdivpow
      simp only [h16, if_false, List.length_append, List.length_cons, List.length_nil]
      omega

theorem toHexChars_length_le_six (c : Char) : (toHexChars c.toNat).length ≤ 6 := by
  have hb : c.toNat < 16 ^ 6 := by
    have := char_toNat_lt c
    omega
  exact toHexAux_length_le (c.toNat + 1) c.toNat 5 (Nat.lt_succ_self _) hb

theorem encodeChar_length (c : Char) : (encodeChar c).length = 6 := by
  have := toHexChars_length_le_six c
  simp only [encodeChar, List.length_append, List.length_replicate]
  omega

theorem foldl_digStep_zeros (j : Nat) :
    (List.replicate j '0').foldl (digStep 16) (some 0) = some 0 := by
  induction j with
  | zero => rfl
  | succ j ih =>
    rw [List.replicate_succ, List.foldl_cons]
    have hstep : digStep 16 (some 0) '0' = some 0 := by decide
    rw [hstep]
    exact ih

theorem parseDigits_encodeChar (c : Char) :
    parseDigits 16 (encodeChar c) = some c.toNat := by
  show (encodeChar c).foldl (digStep 16) (some 0) = some c.toNat
  rw [encodeChar, List.foldl_append, foldl_digStep_zeros]
  exact parseDigits_toHexChars c.toNat

theorem encodeChar_inj (c d : Char) (h : encodeChar c = encodeChar d) : c = d := by
  have := congrArg (fun l => l.foldl (digStep 16) (some 0)) h
  simp only [] at this
  rw [show (encodeChar c).foldl (digStep 16) (some 0) = parseDigits 16 (encodeChar c) from rfl,
    show (encodeChar d).foldl (digStep 16) (some 0) = parseDigits 16 (encodeChar d) from rfl,
    parseDigits_encodeChar, parseDigits_encodeChar] at this
  exact char_eq_of_toNat_eq c d (by injection this)

theorem flatten_encode_inj :
    ∀ l1 l2 : List Char, (l1.map encodeChar).flatten = (l2.map encodeChar).flatten → l1 = l2 := by
  intro l1
  induction l1 with
  | nil =>
    intro l2 h
    cases l2 with
    | nil => rfl
    | cons d ds =>
      have := congrArg List.length h
      simp [encodeChar_length] at this
      omega
  | cons c cs ih =>
    intro l2 h
    cases l2 with
    | nil =>
      have := congrArg List.length h
      simp [encodeChar_length] at this
    | cons d ds =>
      simp only [List.map_cons, List.flatten_cons] at h
      have hlen : (encodeChar c).length = (encodeChar d).length := by
        rw [encodeChar_length, encodeChar_length]
      obtain ⟨hblock, htail⟩ := List.append_inj h hlen
      rw [encodeChar_inj c d hblock, ih ds htail]

theorem contentHash_inj (v1 v2 : String) (h : contentHash v1 = contentHash v2) :
    v1 = v2 := by
  have hd := congrArg String.data h
  exact String.ext (flatten_encode_inj v1.data v2.data hd)

theorem string_key_inj (bh : String) :
    Function.Injective fun nv => "str:" ++ bh ++ ":" ++ contentHash nv := by
  intro a b h
  have hd := congrArg String.data h
  simp only [String.data_append, List.append_assoc] at hd
  have h1 := List.append_cancel_left hd
  have h2 := List.append_cancel_left h1
  have h3 := List.append_cancel_left h2
  exact contentHash_inj a b (String.ext h3)

/-! ## String deduplication theorems -/

theorem any_map_general {α β : Type} (f : α → β) (l : List α) (p : β → Bool) :
    (l.map f).any p = l.any fun x => p (f x) := by
  induction l with
  | nil => rfl
  | cons x xs ih => simp [List.any_cons, ih]

theorem dedup_map_uid (ns : List StringNode) :
    ∀ acc : List StringNode,
      ((ns.foldl
        (fun acc node => if acc.any fun m => m.uid == node.uid then acc else acc ++ [node])
        acc).map StringNode.uid)
      = (ns.map StringNode.uid).foldl
          (fun acc v => if acc.any fun w => w == v then acc else acc ++ [v])
          (acc.map StringNode.uid) := by
  induction ns with
  | nil => intro acc; rfl
  | cons n rest ih =>
    intro acc
    simp only [List.foldl_cons, List.map_cons]
    have hany : ((acc.map StringNode.uid).any fun w => w == n.uid)
        = (acc.any fun m => m.uid == n.uid) :=
      any_map_general StringNode.uid acc _
    rw [hany]
    by_cases hmem : acc.any fun m => m.uid == n.uid
    · simp only [hmem, if_true]
      exact ih acc
    · simp only [Bool.not_eq_true] at hmem
      simp only [hmem, Bool.false_eq_true, if_false]
      rw [ih (acc ++ [n])]
      simp

theorem dedupByUid_map_uid (ns : List StringNode) :
    (dedupByUid ns).map StringNode.uid = firstDedup (ns.map StringNode.uid) :=
  dedup_map_uid ns []

theorem firstDedup_map_inj (f : String → String) (hf : Function.Injective f)
    (l : List String) :
    ∀ acc : List String,
      ((l.map f).foldl
        (fun acc v => if acc.any fun w => w == v then acc else acc ++ [v])
        (acc.map f))
      = (l.foldl
          (fun acc v => if acc.any fun w => w == v then acc else acc ++ [v])
          acc).map f := by
  induction l with
  | nil => intro acc; rfl
  | cons v rest ih =>
    intro acc
    simp only [List.foldl_cons, List.map_cons]
    have hany : ((acc.map f).any fun w => w == f v) = (acc.any fun w => w == v) := by
      have h1 : ((acc.map f).any fun w => w == f v) = (acc.any fun w => f w == f v) :=
        any_map_general f acc _
      rw [h1]
      congr 1
      funext w
      simp [beq_iff_eq, hf.eq_iff]
    rw [hany]
    by_cases hmem : acc.any fun w => w == v
    · simp only [hmem, if_true]
      exact ih acc
    · simp only [Bool.not_eq_true] at hmem
      simp only [hmem, Bool.false_eq_true, if_false]
      have : (acc.map f) ++ [f v] = (acc ++ [v]).map f := by simp
      rw [this]
      exact ih (acc ++ [v])

theorem firstDedup_length_map_inj (f : String → String) (hf : Function.Injective f)
    (l : List String) : (firstDedup (l.map f)).length = (firstDedup l).length := by
  have h2 : firstDedup (l.map f) = (firstDedup l).map f := firstDedup_map_inj f hf l []
  rw [h2, List.length_map]

theorem map_uid_parse_strings (records : List StringRecord) (bh : String) :
    (parse_strings_list records bh).map StringNode.uid
      = ((records.filterMap StringRecord.value).map trimTrailingNul).map
          (fun nv => "str:" ++ bh ++ ":" ++ contentHash nv) := by
  induction records with
  | nil => rfl
  | cons r rest ih =>
    cases hv : r.value with
    | none => simp [parse_strings_list, List.filterMap_cons, hv, ih, parse_strings_list] at ih ⊢
              exact ih
    | some v =>
      simp only [parse_strings_list, List.filterMap_cons, hv, Option.map_some', List.map_cons] at ih ⊢
      rw [← ih]
      rfl

theorem find?_append_left {p : StringNode → Bool} {l1 l2 : List StringNode} {x : StringNode}
    (h : l1.find? p = some x) : (l1 ++ l2).find? p = some x := by
  rw [List.find?_append, h]
  rfl

theorem dedup_firstwins_go (ns : List StringNode) :
    ∀ (pre acc : List StringNode),
      (∀ x ∈ acc, (pre.find? fun y => y.uid == x.uid) = some x) →
      (∀ u, u ∈ acc.map StringNode.uid ↔ u ∈ pre.map StringNode.uid) →
      ∀ x ∈ ns.foldl
        (fun acc node => if acc.any fun m => m.uid == node.uid then acc else acc ++ [node])
        acc,
        ((pre ++ ns).find? fun y => y.uid == x.uid) = some x := by
  induction ns with
  | nil =>
    intro pre acc h1 _ x hx
    simpa using h1 x hx
  | cons n rest ih =>
    intro pre acc h1 h2 x hx
    simp only [List.foldl_cons] at hx
    have hassoc : pre ++ n :: rest = (pre ++ [n]) ++ rest := by simp
    rw [hassoc]
    by_cases hmem : acc.any fun m => m.uid == n.uid
    · simp only [hmem, if_true] at hx
      refine ih (pre ++ [n]) acc ?_ ?_ x hx
      · intro y hy
        exact find?_append_left (h1 y hy)
      · intro u
        rw [h2 u]
        constructor
        · intro hu
          simp [hu]
        · intro hu
          simp only [List.map_append, List.mem_append, List.map_cons, List.map_nil,
            List.mem_singleton] at hu
          rcases hu with hu | hu
          · exact hu
          · have : n.uid ∈ acc.map StringNode.uid := by
              rcases List.any_eq_true.mp hmem with ⟨m, hm, hmeq⟩
              have : m.uid = n.uid := by simpa using hmeq
              exact this ▸ List.mem_map_of_mem StringNode.uid hm
            subst hu
            exact (h2 n.uid).mp this
    · simp only [Bool.not_eq_true] at hmem
      simp only [hmem, Bool.false_eq_true, if_false] at hx
      refine ih (pre ++ [n]) (acc ++ [n]) ?_ ?_ x hx
      · intro y hy
        simp only [List.mem_append, List.mem_singleton] at hy
        rcases hy with hy | rfl
        · exact find?_append_left (h1 y hy)
        · have hnone : (pre.find? fun z => z.uid == y.uid) = none := by
            apply List.find?_eq_none.mpr
            intro z hz hzeq
            have hzuid : z.uid = y.uid := by simpa using hzeq
            have : y.uid ∈ pre.map StringNode.uid :=
              hzuid ▸ List.mem_map_of_mem StringNode.uid hz
            have : y.uid ∈ acc.map StringNode.uid := (h2 y.uid).mpr this
            rcases List.mem_map.mp this with ⟨w, hw, hweq⟩
            have : acc.any (fun m => m.uid == y.uid) = true :=
              List.any_eq_true.mpr ⟨w, hw, by simp [hweq]⟩
            rw [this] at hmem
            exact Bool.true_eq_false.mp hmem
          rw [List.find?_append, hnone]
          simp [List.find?]
      · intro u
        simp only [List.map_append, List.mem_append, List.map_cons, List.map_nil,
          List.mem_singleton]
        rw [h2 u]

/-- The counterexample to claim C5 as stated: two records with the same
normalized value but different addresses collapse to one node carrying the
FIRST record's address, so the collapse is not last-write-wins. -/
theorem claim_C5_counterexample :
    ((strings_phase [⟨some "A", some "0x1"⟩, ⟨some "A", some "0x2"⟩] "h").2.map
        StringNode.address)
      = [some "0x1"]
    ∧ ([some "0x1"] : List (Option String)) ≠ [some "0x2"] := by
  constructor
  · decide
  · decide

/-- Claim C5 as amended: records with identical normalized values collapse
to one persisted node keeping the FIRST record of each key (the
`entry(..).or_insert(..)` dedup), a batch with k distinct normalized values
persists exactly k nodes, and the strings statistic is the number of
distinct keys rather than the number of records. -/
theorem claim_C5_amended (binary_hash : String) (records : List StringRecord) :
    (strings_phase records binary_hash).1
        = (firstDedup ((records.filterMap StringRecord.value).map trimTrailingNul)).length
    ∧ (strings_phase records binary_hash).2.length = (strings_phase records binary_hash).1
    ∧ ∀ node ∈ (strings_phase records binary_hash).2,
        ((parse_strings_list records binary_hash).find? fun y => y.uid == node.uid)
          = some node := by
  refine ⟨?_, rfl, ?_⟩
  · show (dedupByUid (parse_strings_list records binary_hash)).length = _
    have h1 := congrArg List.length (dedupByUid_map_uid (parse_strings_list records binary_hash))
    rw [List.length_map] at h1
    rw [h1, map_uid_parse_strings records binary_hash,
      firstDedup_length_map_inj _ (string_key_inj binary_hash)]
  · intro node hnode
    have := dedup_firstwins_go (parse_strings_list records binary_hash) [] []
      (by intro x hx; cases hx) (by intro u; rfl) node hnode
    simpa using this

/-- Closed witness for the amended claim C5: the spec's own example, a batch
of five records over two distinct normalized values (NUL-stripped), persists
exactly two nodes, and the collapsed node of the first key is the first
record bearing it. -/
theorem claim_C5_witness :
    (strings_phase [⟨some "a", some "0x1"⟩, ⟨some ("b" ++ "\x00"), some "0x2"⟩,
        ⟨some ("a" ++ "\x00"), some "0x3"⟩, ⟨some "b", some "0x4"⟩,
        ⟨some "a", some "0x5"⟩] "h").1 = 2
    ∧ ((parse_strings_list [⟨some "a", some "0x1"⟩, ⟨some ("b" ++ "\x00"), some "0x2"⟩,
        ⟨some ("a" ++ "\x00"), some "0x3"⟩, ⟨some "b", some "0x4"⟩,
        ⟨some "a", some "0x5"⟩] "h").find? fun y =>
          y.uid == (StringNode.new "h" "a" (some "0x1")).uid)
        = some (StringNode.new "h" "a" (some "0x1")) := by
  constructor
  · exact (claim_C5_amended "h" _).1.trans (by decide)
  · exact (claim_C5_amended "h" _).2.2 (StringNode.new "h" "a" (some "0x1")) (by decide)

/-! ## Batch result theorems -/

theorem import_data_core_success (binary : Binary) (data : ImportData) :
    (import_data_core binary data).success
      = (import_data_core binary data).errors.isEmpty := rfl

theorem import_data_none (data : ImportData) (h : data.binary_info = none) :
    import_data data = ⟨false, zeroStats, ["Missing binary_info in data"]⟩ := by
  unfold import_data
  rw [h]

theorem import_data_some (data : ImportData) (bi : BinaryInfoJson)
    (h : data.binary_info = some bi) :
    import_data data
      = match parse_binary_info bi with
        | Except.error e => ⟨false, zeroStats, ["Failed to parse binary info: " ++ e]⟩
        | Except.ok binary => import_data_core binary data := by
  unfold import_data
  rw [h]

/-- Claim C7: the batch result succeeds exactly when the error list is
empty, and a missing `binary_info`, or one whose hashes or filename cannot
be parsed, aborts the batch early with zeroed statistics and a single error
naming the failure; a missing `hashes` object produces exactly the
`Missing hashes` parse failure. -/
theorem claim_C7 (data : ImportData) :
    ((import_data data).success = (import_data data).errors.isEmpty)
    ∧ (data.binary_info = none →
        import_data data = ⟨false, zeroStats, ["Missing binary_info in data"]⟩)
    ∧ (∀ bi e, data.binary_info = some bi → parse_binary_info bi = Except.error e →
        import_data data = ⟨false, zeroStats, ["Failed to parse binary info: " ++ e]⟩)
    ∧ (∀ bi, data.binary_info = some bi → bi.hashes = none →
        parse_binary_info bi = Except.error "Missing hashes") := by
  refine ⟨?_, ?_, ?_, ?_⟩
  · cases hbi : data.binary_info with
    | none => rw [import_data_none data hbi]; rfl
    | some bi =>
      rw [import_data_some data bi hbi]
      cases hp : parse_binary_info bi with
      | error e => rfl
      | ok binary => exact import_data_core_success binary data
  · intro h
    exact import_data_none data h
  · intro bi e hbi hp
    rw [import_data_some data bi hbi, hp]
  · intro bi hbi hh
    unfold parse_binary_info
    rw [hh]

/-- Closed witness for claim C7: a payload whose `binary_info` lacks the
`hashes` object aborts with zeroed statistics and the expected error. -/
theorem claim_C7_witness :
    import_data ⟨some ⟨some "a.exe", none, none, none, none, none⟩,
        none, none, none, none, none⟩
      = ⟨false, zeroStats, ["Failed to parse binary info: " ++ "Missing hashes"]⟩
    ∧ zeroStats.binaries = 0 := by
  constructor
  · exact (claim_C7 _).2.2.1 ⟨some "a.exe", none, none, none, none, none⟩
      "Missing hashes" rfl
      ((claim_C7 ⟨some ⟨some "a.exe", none, none, none, none, none⟩,
        none, none, none, none, none⟩).2.2.2 _ rfl rfl)
  · rfl

/-! ## Functions phase theorems -/

theorem append_colon_hex (s : String) : s ++ ":" ++ "0x0" = s ++ ":0x0" := by
  apply String.ext
  simp only [String.data_append, List.append_assoc]
  rfl

/-- Claim C10: a function record whose address is missing or unparseable is
assigned numeric address zero and the identifier `binary hash` `:0x0`, so
any two such records in one batch share one identifier (and hence the same
upserted node and address-map key) while the functions statistic counts
every record, allowing the count to exceed the number of distinct nodes. -/
theorem claim_C10 :
    (∀ binary_hash (r : FuncRecord),
      (r.address = none ∨ ∃ a, r.address = some a ∧ parse_address a = none) →
      (parseFunc binary_hash r).uid = binary_hash ++ ":0x0"
      ∧ (parseFunc binary_hash r).address = some "0x0")
    ∧ (∀ binary_hash records m, (functions_phase records binary_hash m).1 = records.length)
    ∧ ((functions_phase [⟨none, none, none⟩, ⟨some "f2", some "zzz", none⟩] "h" []).2.1.map
        Function.uid = ["h:0x0", "h:0x0"])
    ∧ (firstDedup ((functions_phase [⟨none, none, none⟩, ⟨some "f2", some "zzz", none⟩]
        "h" []).2.1.map Function.uid)).length = 1
    ∧ (functions_phase [⟨none, none, none⟩, ⟨some "f2", some "zzz", none⟩] "h" []).1 = 2
    ∧ (firstDedup ((functions_phase [⟨none, none, none⟩, ⟨some "f2", some "zzz", none⟩]
        "h" []).2.2.map Prod.fst)).length = 1 := by
  refine ⟨?_, ?_, by decide, by decide, by decide, by decide⟩
  · intro binary_hash r h
    have haddr : (parse_address (r.address.getD "0x0")).getD 0 = 0 := by
      rcases h with h | ⟨a, ha, hpa⟩
      · rw [h]
        decide
      · rw [ha]
        simp [hpa]
    constructor
    · show binary_hash ++ ":" ++ format_address ((parse_address (r.address.getD "0x0")).getD 0)
        = binary_hash ++ ":0x0"
      rw [haddr]
      rw [show format_address 0 = "0x0" from by decide]
      exact append_colon_hex binary_hash
    · show some (format_address ((parse_address (r.address.getD "0x0")).getD 0)) = some "0x0"
      rw [haddr]
      rw [show format_address 0 = "0x0" from by decide]
  · intro binary_hash records m
    simp [functions_phase]

/-- Closed witness for claim C10: both the missing-address record and the
unparseable-address record derive the shared `0x0` identifier. -/
theorem claim_C10_witness :
    (parseFunc "h" ⟨none, none, none⟩).uid = "h:0x0"
    ∧ (parseFunc "h" ⟨some "f2", some "zzz", none⟩).uid = "h:0x0" :=
  ⟨((claim_C10.1 "h" ⟨none, none, none⟩ (Or.inl rfl)).1).trans (by decide),
   ((claim_C10.1 "h" ⟨some "f2", some "zzz", none⟩
      (Or.inr ⟨"zzz", rfl, by decide⟩)).1).trans (by decide)⟩

/-! ## Call-path query theorems -/

theorem foldl_add_node (l : List CallPathNode) :
    ∀ p : CallPath,
      (l.foldl CallPath.add_node p).nodes = p.nodes ++ l
      ∧ (l.foldl CallPath.add_node p).length
          = ((l.getLast?).map CallPathNode.depth).getD p.length := by
  induction l with
  | nil => intro p; simp
  | cons n rest ih =>
    intro p
    simp only [List.foldl_cons]
    obtain ⟨h1, h2⟩ := ih (p.add_node n)
    refine ⟨by rw [h1]; simp [CallPath.add_node], ?_⟩
    rw [h2]
    cases hr : rest with
    | nil => simp [CallPath.add_node]
    | cons m ms =>
      rw [List.getLast?_cons_cons]
      obtain ⟨x, hx⟩ : ∃ x, (m :: ms).getLast? = some x := by
        cases hlast : (m :: ms).getLast? with
        | none => exact absurd (List.getLast?_eq_none_iff.mp hlast) (by simp)
        | some x => exact ⟨x, rfl⟩
      rw [hx]
      rfl

theorem buildPath_nodes (id : String) (row : PathRow) :
    (buildPath id row).nodes
      = row.node_names.enum.map fun pair => mkPathNode row pair.1 pair.2 := by
  unfold buildPath
  rw [← List.foldl_map (fun pair => mkPathNode row pair.1 pair.2) CallPath.add_node
    row.node_names.enum (CallPath.new id)]
  exact ((foldl_add_node _ _).1).trans (by simp [CallPath.new])

theorem buildPath_length (id : String) (row : PathRow) :
    (buildPath id row).length
      = (((buildPath id row).nodes.getLast?).map CallPathNode.depth).getD 0 := by
  unfold buildPath
  rw [← List.foldl_map (fun pair => mkPathNode row pair.1 pair.2) CallPath.add_node
    row.node_names.enum (CallPath.new id)]
  obtain ⟨h1, h2⟩ := foldl_add_node
    (row.node_names.enum.map fun pair => mkPathNode row pair.1 pair.2) (CallPath.new id)
  rw [h1, h2]
  simp [CallPath.new]

theorem buildPath_last (id : String) (row : PathRow) (h : row.node_names ≠ []) :
    ∃ last, (buildPath id row).nodes.getLast? = some last
      ∧ (buildPath id row).length = last.depth := by
  have hne : (buildPath id row).nodes ≠ [] := by
    rw [buildPath_nodes]
    simp [h]
  obtain ⟨x, hx⟩ : ∃ x, (buildPath id row).nodes.getLast? = some x := by
    cases hlast : (buildPath id row).nodes.getLast? with
    | none => exact absurd (List.getLast?_eq_none_iff.mp hlast) hne
    | some x => exact ⟨x, rfl⟩
  refine ⟨x, hx, ?_⟩
  rw [buildPath_length, hx]
  rfl

theorem buildPath_depths (id : String) (row : PathRow) :
    (buildPath id row).nodes.map CallPathNode.depth
      = List.range (buildPath id row).nodes.length := by
  rw [buildPath_nodes, List.map_map]
  have hcomp : CallPathNode.depth ∘ (fun pair => mkPathNode row pair.1 pair.2)
      = Prod.fst := rfl
  rw [hcomp, List.enum_map_fst]
  simp

/-- Claim C8: `query_call_paths` never returns an empty list; every path's
recorded length is the depth of its final node, node depths run
0, 1, 2 and so on along each path, and when every returned row is degenerate
(in particular when the traversal finds nothing) the result is exactly the
synthetic single-node path naming the queried function at depth zero. -/
theorem claim_C8 (function_name : String) (rows : List PathRow) :
    query_call_paths function_name rows ≠ []
    ∧ (∀ p ∈ query_call_paths function_name rows,
        ∃ last, p.nodes.getLast? = some last ∧ p.length = last.depth)
    ∧ (∀ p ∈ query_call_paths function_name rows,
        p.nodes.map CallPathNode.depth = List.range p.nodes.length)
    ∧ ((∀ row ∈ rows, row.node_names = []) →
        query_call_paths function_name rows = [singlePath function_name])
    ∧ (singlePath function_name).nodes
        = [{ id := "single_node", name := function_name, address := some "0x1000",
             depth := 0, call_site := none, call_type := "Entry" }]
    ∧ (singlePath function_name).length = 0 := by
  have hmem : ∀ p ∈ query_call_paths function_name rows,
      p = singlePath function_name
      ∨ ∃ k row, row.node_names ≠ [] ∧ p = buildPath ("path_" ++ toString (k + 1)) row := by
    intro p hp
    unfold query_call_paths at hp
    by_cases hempty : (rows.enum.filterMap fun pair =>
        if pair.2.node_names.isEmpty then none
        else some (buildPath ("path_" ++ toString (pair.1 + 1)) pair.2)).isEmpty
    · left
      simp only [hempty, if_true, List.mem_singleton] at hp
      exact hp
    · right
      simp only [hempty, Bool.false_eq_true, if_false] at hp
      rcases List.mem_filterMap.mp hp with ⟨pair, _, hpair⟩
      by_cases hdeg : pair.2.node_names.isEmpty
      · rw [if_pos hdeg] at hpair
        cases hpair
      · rw [if_neg hdeg] at hpair
        exact ⟨pair.1, pair.2, by simpa using hdeg, (Option.some.injEq _ _ ▸ hpair).symm⟩
  refine ⟨?_, ?_, ?_, ?_, rfl, rfl⟩
  · unfold query_call_paths
    by_cases hempty : (rows.enum.filterMap fun pair =>
        if pair.2.node_names.isEmpty then none
        else some (buildPath ("path_" ++ toString (pair.1 + 1)) pair.2)).isEmpty = true
    · rw [if_pos hempty]
      simp
    · rw [if_neg hempty]
      exact fun hc => hempty (List.isEmpty_iff.mpr hc)
  · intro p hp
    rcases hmem p hp with rfl | ⟨k, row, hrow, rfl⟩
    · exact ⟨_, rfl, rfl⟩
    · exact buildPath_last _ row hrow
  · intro p hp
    rcases hmem p hp with rfl | ⟨k, row, _, rfl⟩
    · rfl
    · exact buildPath_depths _ row
  · intro hall
    unfold query_call_paths
    have hnil : (rows.enum.filterMap fun pair =>
        if pair.2.node_names.isEmpty then none
        else some (buildPath ("path_" ++ toString (pair.1 + 1)) pair.2)) = [] := by
      apply List.filterMap_eq_nil_iff.mpr
      intro pair hpair
      have : pair.2.node_names = [] := hall pair.2 (List.snd_mem_of_mem_enum hpair)
      simp [this]
    rw [hnil]
    rfl

/-- Closed witness for claim C8: no rows yields exactly the synthetic path;
a two-node row yields a path whose length is its last node's depth. -/
theorem claim_C8_witness :
    query_call_paths "f" [] = [singlePath "f"]
    ∧ ∃ last,
      (buildPath "path_1" ⟨["main", "helper"], ["0x1", "0x2"], ["0x10"]⟩).nodes.getLast?
        = some last
      ∧ (buildPath "path_1" ⟨["main", "helper"], ["0x1", "0x2"], ["0x10"]⟩).length
        = last.depth :=
  ⟨(claim_C8 "f" []).2.2.2.1 (by simp),
   (claim_C8 "f" [⟨["main", "helper"], ["0x1", "0x2"], ["0x10"]⟩]).2.1
     (buildPath "path_1" ⟨["main", "helper"], ["0x1", "0x2"], ["0x10"]⟩) (by decide)⟩

/-- Claim C9: context analysis aggregates the upward chains, downward paths
and caller sequences of one function and derives insight strings carrying
the chain and path counts and, when at least one caller sequence exists, the
caller count — which is the number of distinct callers whenever the caller
names are pairwise distinct (one merged CALLS edge per caller). -/
theorem claim_C9 (function_name : String) (upRows downRows : List PathRow)
    (callerRows : List CallerRow) :
    (analyze_call_context function_name upRows downRows callerRows).upward_chains
        = query_upward_call_chain function_name upRows
    ∧ (analyze_call_context function_name upRows downRows callerRows).downward_paths
        = query_call_paths function_name downRows
    ∧ (analyze_call_context function_name upRows downRows callerRows).caller_sequences
        = query_caller_sequences callerRows
    ∧ (query_caller_sequences callerRows = [] →
        (analyze_call_context function_name upRows downRows callerRows).context_insights
          = [insight_counts function_name
              (query_upward_call_chain function_name upRows).length
              (query_call_paths function_name downRows).length])
    ∧ (query_caller_sequences callerRows ≠ [] →
        (analyze_call_context function_name upRows downRows callerRows).context_insights
          = [insight_counts function_name
              (query_upward_call_chain function_name upRows).length
              (query_call_paths function_name downRows).length,
             insight_callers (query_caller_sequences callerRows).length])
    ∧ (((query_caller_sequences callerRows).map CallerSequence.caller_name).Nodup →
        (query_caller_sequences callerRows).length
          = ((query_caller_sequences callerRows).map CallerSequence.caller_name).dedup.length) := by
  refine ⟨?_, ?_, ?_, ?_, ?_, ?_⟩
  · unfold analyze_call_context generate_context_insights
    by_cases h : (query_caller_sequences callerRows).isEmpty <;> simp [h]
  · unfold analyze_call_context generate_context_insights
    by_cases h : (query_caller_sequences callerRows).isEmpty <;> simp [h]
  · unfold analyze_call_context generate_context_insights
    by_cases h : (query_caller_sequences callerRows).isEmpty <;> simp [h]
  · intro h
    unfold analyze_call_context generate_context_insights
    simp [h]
  · intro h
    unfold analyze_call_context generate_context_insights
    have : (query_caller_sequences callerRows).isEmpty = false := by
      simpa [List.isEmpty_iff] using h
    simp [this]
  · intro h
    rw [List.Nodup.dedup h, List.length_map]

/-- Closed witness for claim C9 at a single complete caller row. -/
theorem claim_C9_witness :
    (analyze_call_context "f" [] []
        [⟨some "g", some "0x1", some "0x10", some "f", some "0x2"⟩]).context_insights
      = [insight_counts "f" 1 1, insight_callers 1]
    ∧ (query_caller_sequences
        [⟨some "g", some "0x1", some "0x10", some "f", some "0x2"⟩]).length
      = ((query_caller_sequences
        [⟨some "g", some "0x1", some "0x10", some "f", some "0x2"⟩]).map
          CallerSequence.caller_name).dedup.length := by
  constructor
  · exact ((claim_C9 "f" [] [] [⟨some "g", some "0x1", some "0x10", some "f", some "0x2"⟩]).2.2.2.2.1
      (by decide)).trans (by decide)
  · exact (claim_C9 "f" [] [] [⟨some "g", some "0x1", some "0x10", some "f", some "0x2"⟩]).2.2.2.2.2
      (by decide)

end BXG
